import Mathlib

/-!
Verification development for the cmdx proxy layer: identity cache,
value codec, deferred-mutation transactions and the undo bridge.
Machine reals are modelled as exact rationals, host handles and host
storage as explicit data, and stateful code as explicit state passing.
-/

namespace Cmdx

/-- Error taxonomy of the proxy. Message payloads are elided; only the
class of the error matters to the properties below. -/
inductive CmdxError where
  | existError
  | lockedError
  | typeError
  | runtimeError
  deriving DecidableEq, Repr

/-- Unit classes of the host value types MAngle, MDistance and MTime. -/
inductive UnitClass where
  | angleCls
  | distanceCls
  | timeCls
  deriving DecidableEq, Repr

/-- Model of the cmdx Unit class: a host unit enum integer paired with the
class it constructs on write. The cmdx Unit is an int subclass, so every
comparison in the read path uses only the integer enum value. -/
structure MUnit where
  cls : UnitClass
  enum : Int
  deriving DecidableEq, Repr

def Degrees : MUnit := ⟨.angleCls, 2⟩
def Radians : MUnit := ⟨.angleCls, 1⟩
def AngularMinutes : MUnit := ⟨.angleCls, 3⟩
def AngularSeconds : MUnit := ⟨.angleCls, 4⟩
def Millimeters : MUnit := ⟨.distanceCls, 5⟩
def Centimeters : MUnit := ⟨.distanceCls, 6⟩
def Meters : MUnit := ⟨.distanceCls, 8⟩
def Kilometers : MUnit := ⟨.distanceCls, 7⟩
def Inches : MUnit := ⟨.distanceCls, 1⟩
def Feet : MUnit := ⟨.distanceCls, 2⟩
def Miles : MUnit := ⟨.distanceCls, 4⟩
def Yards : MUnit := ⟨.distanceCls, 3⟩
def Milliseconds : MUnit := ⟨.timeCls, 4⟩
def Minutes : MUnit := ⟨.timeCls, 2⟩
def Seconds : MUnit := ⟨.timeCls, 3⟩

/-- The host converts angles through the real constant pi; the proxy only
forwards values, so the model stands in an exact positive rational for it.
No theorem below depends on more than its nonzeroness. -/
def piRat : ℚ := 3141592653589793 / 1000000000000000

/-- Centimeters per distance unit, indexed by host enum value. The host
stores distance attributes internally in centimeters. -/
def cmPerDistanceEnum : Int → Option ℚ
  | 1 => some (127 / 50)
  | 2 => some (762 / 25)
  | 3 => some (2286 / 25)
  | 4 => some (804672 / 5)
  | 5 => some (1 / 10)
  | 6 => some 1
  | 7 => some 100000
  | 8 => some 100
  | _ => none

/-- Radians per angle unit, indexed by host enum value. The host stores
angle attributes internally in radians. -/
def radPerAngleEnum : Int → Option ℚ
  | 1 => some 1
  | 2 => some (piRat / 180)
  | 3 => some (piRat / 10800)
  | 4 => some (piRat / 648000)
  | _ => none

/-- Seconds per time unit, indexed by host enum value, for the host MTime
conversions the time read path delegates to. -/
def secPerTimeEnum : Int → Option ℚ
  | 1 => some 3600
  | 2 => some 60
  | 3 => some 1
  | 4 => some (1 / 1000)
  | 5 => some (1 / 15)
  | 6 => some (1 / 24)
  | 7 => some (1 / 25)
  | 8 => some (1 / 30)
  | _ => none

/-- Host MDistance conversion: internal centimeters to the given unit. -/
def mdistanceAsUnits (cm : ℚ) (enum : Int) : ℚ :=
  match cmPerDistanceEnum enum with
  | some f => cm / f
  | none => 0

/-- Host MAngle conversion: internal radians to the given unit. -/
def mangleAsUnits (rad : ℚ) (enum : Int) : ℚ :=
  match radPerAngleEnum enum with
  | some f => rad / f
  | none => 0

/-- Host MTime conversion: internal seconds to the given unit. An enum the
host does not know is a host-level failure, not a proxy Type error. -/
def mtimeAsUnits (sec : ℚ) (enum : Int) : Except CmdxError ℚ :=
  match secPerTimeEnum enum with
  | some f => .ok (sec / f)
  | none => .error .runtimeError

/-- Generic Python-side values crossing the codec boundary. A Python bool
is an int subclass, which the write dispatch order makes observable. The
native host value constructors carry the unit enum they were built with. -/
inductive PyValue where
  | pyNone
  | pyBool (b : Bool)
  | pyInt (i : Int)
  | pyFloat (q : ℚ)
  | pyStr (s : String)
  | pyTuple (vs : List PyValue)
  | mAngleVal (q : ℚ) (enum : Int)
  | mDistanceVal (q : ℚ) (enum : Int)
  | mTimeVal (q : ℚ) (enum : Int)
  | mVectorVal (x y z : ℚ)
  | mMatrixVal (entries : List ℚ)

/-- Host-side state of one plug. Leaves carry their storage kind and value
in host internal units (centimeters, radians, seconds). An array plug
carries the default element used when a logical index is first touched,
mirroring elementByLogicalIndex auto-creation. -/
inductive HostPlug where
  | stringLeaf (s : String)
  | matrixTypedLeaf (entries : List ℚ)
  | matrixLeaf (entries : List ℚ)
  | distanceLeaf (cm : ℚ)
  | angleLeaf (rad : ℚ)
  | timeLeaf (sec : ℚ)
  | boolLeaf (b : Bool)
  | intLeaf (i : Int)
  | doubleLeaf (q : ℚ)
  | enumLeaf (i : Int)
  | messageLeaf
  | compound (children : List HostPlug)
  | arrayPlug (template : HostPlug) (elements : List HostPlug)

/-- The host isCompound flag: true for compound attributes, and for array
plugs whose element attribute is compound. -/
def HostPlug.isCompoundAttr : HostPlug → Bool
  | .compound _ => true
  | .arrayPlug t _ => t.isCompoundAttr
  | _ => false

/-- The host isArray flag. -/
def HostPlug.isArrayAttr : HostPlug → Bool
  | .arrayPlug _ _ => true
  | _ => false

/-- Decode one simple (leaf) plug, dispatching on its storage kind exactly
as the read path of the codec does: unit-bearing kinds compare the unit
argument by integer enum value branch by branch; every other kind ignores
the unit argument; a unit-bearing kind whose chain finds no match is a
Type error. -/
def leafToPython : HostPlug → Option MUnit → Except CmdxError PyValue
  | .stringLeaf s, _ => .ok (.pyStr s)
  | .matrixTypedLeaf m, _ => .ok (.pyTuple (m.map .pyFloat))
  | .matrixLeaf m, _ => .ok (.pyTuple (m.map .pyFloat))
  | .distanceLeaf cm, u =>
      match u with
      | none => .ok (.pyFloat (mdistanceAsUnits cm Centimeters.enum))
      | some un =>
          if un.enum = Millimeters.enum then
            .ok (.pyFloat (mdistanceAsUnits cm Millimeters.enum))
          else if un.enum = Centimeters.enum then
            .ok (.pyFloat (mdistanceAsUnits cm Centimeters.enum))
          else if un.enum = Meters.enum then
            .ok (.pyFloat (mdistanceAsUnits cm Meters.enum))
          else if un.enum = Kilometers.enum then
            .ok (.pyFloat (mdistanceAsUnits cm Kilometers.enum))
          else if un.enum = Inches.enum then
            .ok (.pyFloat (mdistanceAsUnits cm Inches.enum))
          else if un.enum = Feet.enum then
            .ok (.pyFloat (mdistanceAsUnits cm Feet.enum))
          else if un.enum = Miles.enum then
            .ok (.pyFloat (mdistanceAsUnits cm Miles.enum))
          else if un.enum = Yards.enum then
            .ok (.pyFloat (mdistanceAsUnits cm Yards.enum))
          else .error .typeError
  | .angleLeaf rad, u =>
      match u with
      | none => .ok (.pyFloat (mangleAsUnits rad Radians.enum))
      | some un =>
          if un.enum = Degrees.enum then
            .ok (.pyFloat (mangleAsUnits rad Degrees.enum))
          else if un.enum = Radians.enum then
            .ok (.pyFloat (mangleAsUnits rad Radians.enum))
          else if un.enum = AngularSeconds.enum then
            .ok (.pyFloat (mangleAsUnits rad AngularSeconds.enum))
          else if un.enum = AngularMinutes.enum then
            .ok (.pyFloat (mangleAsUnits rad AngularMinutes.enum))
          else .error .typeError
  | .timeLeaf sec, u =>
      (mtimeAsUnits sec (match u with | some un => un.enum | none => Seconds.enum)).map
        .pyFloat
  | .boolLeaf b, _ => .ok (.pyBool b)
  | .intLeaf i, _ => .ok (.pyInt i)
  | .doubleLeaf q, _ => .ok (.pyFloat q)
  | .enumLeaf i, _ => .ok (.pyInt i)
  | .messageLeaf, _ => .ok (.pyBool true)
  | .compound _, _ => .error .typeError
  | .arrayPlug _ _, _ => .error .typeError

mutual

/-- Decode a plug to a generic value. An array-and-compound plug reads its
logical element zero; an array plug reads every element; a compound plug
reads every child; a leaf dispatches on its storage kind. -/
def plug_to_python : HostPlug → Option MUnit → Except CmdxError PyValue
  | .compound children, u =>
      (plugs_to_python children u).map .pyTuple
  | .arrayPlug t es, u =>
      if t.isCompoundAttr then
        match es with
        | [] => plug_to_python t u
        | e :: _ => plug_to_python e u
      else
        (plugs_to_python es u).map .pyTuple
  | p, u => leafToPython p u

/-- Decode a list of plugs elementwise, stopping at the first failure. -/
def plugs_to_python : List HostPlug → Option MUnit → Except CmdxError (List PyValue)
  | [], _ => .ok []
  | p :: rest, u => do
      let v ← plug_to_python p u
      let vs ← plugs_to_python rest u
      .ok (v :: vs)

end

/-- Numeric extraction the host matrix constructor performs on a sequence:
floats, ints and bools are accepted as numbers, anything else fails. -/
def ratsOf : List PyValue → Option (List ℚ)
  | [] => some []
  | .pyFloat q :: rest => (ratsOf rest).map (q :: ·)
  | .pyInt i :: rest => (ratsOf rest).map ((i : ℚ) :: ·)
  | .pyBool b :: rest => (ratsOf rest).map ((if b then (1 : ℚ) else 0) :: ·)
  | _ :: _ => none

/-- Host MPlug setInt: the host coerces the integer into the storage kind
of the plug; unit-bearing kinds store it in internal units. -/
def hostSetInt (i : Int) : HostPlug → Except CmdxError HostPlug
  | .boolLeaf _ => .ok (.boolLeaf (i ≠ 0))
  | .intLeaf _ => .ok (.intLeaf i)
  | .doubleLeaf _ => .ok (.doubleLeaf (i : ℚ))
  | .enumLeaf _ => .ok (.enumLeaf i)
  | .distanceLeaf _ => .ok (.distanceLeaf (i : ℚ))
  | .angleLeaf _ => .ok (.angleLeaf (i : ℚ))
  | .timeLeaf _ => .ok (.timeLeaf (i : ℚ))
  | _ => .error .runtimeError

/-- Host MPlug setDouble, with the same coercion rules as setInt. -/
def hostSetDouble (q : ℚ) : HostPlug → Except CmdxError HostPlug
  | .boolLeaf _ => .ok (.boolLeaf (q ≠ 0))
  | .intLeaf _ => .ok (.intLeaf q.floor)
  | .doubleLeaf _ => .ok (.doubleLeaf q)
  | .enumLeaf _ => .ok (.enumLeaf q.floor)
  | .distanceLeaf _ => .ok (.distanceLeaf q)
  | .angleLeaf _ => .ok (.angleLeaf q)
  | .timeLeaf _ => .ok (.timeLeaf q)
  | _ => .error .runtimeError

/-- Host MPlug setString. -/
def hostSetString (s : String) : HostPlug → Except CmdxError HostPlug
  | .stringLeaf _ => .ok (.stringLeaf s)
  | _ => .error .runtimeError

/-- Ordering tag used only by the termination measure of the write path:
the value argument can grow exactly once, when a bare scalar aimed at a
compound plug is re-dispatched as a tuple of copies. -/
def pvTag : PyValue → Nat
  | .pyTuple _ => 3
  | .mVectorVal _ _ _ => 3
  | .pyBool _ => 4
  | .pyInt _ => 4
  | .pyFloat _ => 4
  | .pyStr _ => 4
  | _ => 0

mutual

/-- Encode a generic value into a plug, mirroring the write dispatch:
sequences loop over children by logical index and reject nesting, with a
special case turning a 16-element sequence aimed at a matrix attribute
into a host matrix; native host values hit their dedicated setters; a
bare scalar aimed at a compound is re-dispatched as a flat tuple of one
copy per child; remaining scalars dispatch by Python type, where a bool,
being an int subclass, is consumed by the int branch. -/
def python_to_plug : PyValue → HostPlug → Except CmdxError HostPlug
  | .pyTuple vs, p =>
      match p with
      | .matrixLeaf m =>
          if vs.length = 16 then
            match ratsOf vs with
            | some qs => python_to_plug (.mMatrixVal qs) (.matrixLeaf m)
            | none => .error .runtimeError
          else .error .runtimeError
      | .compound cs => (writeCompoundElems vs cs).map .compound
      | .arrayPlug t es => (writeArrayElems vs es t).map (.arrayPlug t)
      | _ =>
          match vs with
          | [] => .ok p
          | _ :: _ => .error .typeError
  | .mVectorVal x y z, p =>
      match p with
      | .compound cs =>
          (writeCompoundElems [.pyFloat x, .pyFloat y, .pyFloat z] cs).map .compound
      | .arrayPlug t es =>
          (writeArrayElems [.pyFloat x, .pyFloat y, .pyFloat z] es t).map (.arrayPlug t)
      | _ => .error .typeError
  | .mAngleVal q enum, p =>
      match p with
      | .angleLeaf _ =>
          match radPerAngleEnum enum with
          | some f => .ok (.angleLeaf (q * f))
          | none => .error .runtimeError
      | _ => .error .runtimeError
  | .mDistanceVal q enum, p =>
      match p with
      | .distanceLeaf _ =>
          match cmPerDistanceEnum enum with
          | some f => .ok (.distanceLeaf (q * f))
          | none => .error .runtimeError
      | _ => .error .runtimeError
  | .mTimeVal q enum, p =>
      match p with
      | .timeLeaf _ =>
          match secPerTimeEnum enum with
          | some f => .ok (.timeLeaf (q * f))
          | none => .error .runtimeError
      | _ => .error .runtimeError
  | .mMatrixVal m, p =>
      match p with
      | .matrixLeaf _ => .ok (.matrixLeaf m)
      | .matrixTypedLeaf _ => .ok (.matrixTypedLeaf m)
      | _ => .error .runtimeError
  | .pyStr s, p =>
      match p with
      | .compound cs =>
          python_to_plug (.pyTuple (List.replicate cs.length (.pyStr s))) (.compound cs)
      | _ => hostSetString s p
  | .pyInt i, p =>
      match p with
      | .compound cs =>
          python_to_plug (.pyTuple (List.replicate cs.length (.pyInt i))) (.compound cs)
      | _ => hostSetInt i p
  | .pyFloat q, p =>
      match p with
      | .compound cs =>
          python_to_plug (.pyTuple (List.replicate cs.length (.pyFloat q))) (.compound cs)
      | _ => hostSetDouble q p
  | .pyBool b, p =>
      match p with
      | .compound cs =>
          python_to_plug (.pyTuple (List.replicate cs.length (.pyBool b))) (.compound cs)
      | _ => hostSetInt (if b then 1 else 0) p
  | .pyNone, _ => .error .typeError
termination_by v p => (sizeOf p, pvTag v, 0)
decreasing_by all_goals first
  | decreasing_tactic
  | (simp [pvTag]; decreasing_tactic)

/-- Sequential write of values into the children of a compound plug, in
logical-index order: per element, the nested-sequence rejection runs
first, then the child write; a value without a matching child is the
out-of-range child lookup failure. Values beyond the list leave the
remaining children untouched. -/
def writeCompoundElems : List PyValue → List HostPlug → Except CmdxError (List HostPlug)
  | [], cs => .ok cs
  | .pyTuple _ :: _, _ => .error .typeError
  | _ :: _, [] => .error .runtimeError
  | v :: rest, c :: cs => do
      let c2 ← python_to_plug v c
      let cs2 ← writeCompoundElems rest cs
      .ok (c2 :: cs2)
termination_by vs cs => (sizeOf cs, 2, sizeOf vs)

/-- Sequential write of values into an array plug by logical index; an
index past the current element count is auto-created from the default
element, mirroring elementByLogicalIndex. -/
def writeArrayElems : List PyValue → List HostPlug → HostPlug → Except CmdxError (List HostPlug)
  | [], es, _ => .ok es
  | .pyTuple _ :: _, _, _ => .error .typeError
  | v :: rest, [], t => do
      let e2 ← python_to_plug v t
      let es2 ← writeArrayElems rest [] t
      .ok (e2 :: es2)
  | v :: rest, e :: es, t => do
      let e2 ← python_to_plug v e
      let es2 ← writeArrayElems rest es t
      .ok (e2 :: es2)
termination_by vs es t => (sizeOf t + sizeOf es, 2, sizeOf vs)

end

/-- Insertion into a small association map with dict replace semantics. -/
def dictInsert {κ α : Type} [DecidableEq κ] (k : κ) (v : α) :
    List (κ × α) → List (κ × α) :=
  fun l => (k, v) :: l.filter (fun p => decide (p.1 ≠ k))

/-- Lookup in a small association map. -/
def dictLookup {κ α : Type} [DecidableEq κ] (k : κ) : List (κ × α) → Option α
  | [] => none
  | (k2, v) :: rest => if k2 = k then some v else dictLookup k rest

/-- Python-object state of one Plug wrapper: its optional unit, the key it
was looked up under on the owning node, and the private field the write
path records the last written value into. -/
structure PlugObj where
  unit : Option MUnit
  key : Option String
  cached : Option PyValue

/-- One scene entity as the channel layer sees it: its host attributes by
name, and the transient values dict of the wrapper, keyed by the pair of
channel key and unit. -/
structure NodeState where
  attrs : List (String × HostPlug)
  values : List ((Option String × Option MUnit) × PyValue)

/-- Read a plug: decode through the codec with the effective unit, then
memoize the decoded value on the owning node keyed by key and unit. -/
def plugRead (po : PlugObj) (host : HostPlug) (n : NodeState)
    (unitArg : Option MUnit) : Except CmdxError (PyValue × NodeState) := do
  let effUnit := match unitArg with | some u => some u | none => po.unit
  let v ← plug_to_python host effUnit
  .ok (v, { n with values := dictInsert (po.key, effUnit) v n.values })

/-- Write a plug: encode through the codec, then record the written value
in the private field of the Plug object. The transient values dict of the
owning node is not touched by a write. -/
def plugWrite (po : PlugObj) (host : HostPlug) (v : PyValue) :
    Except CmdxError (HostPlug × PlugObj) := do
  let h ← python_to_plug v host
  .ok (h, { po with cached := some v })

/-- Result of item access on a node: either a value served from the
transient state with no host access, or a live plug whose construction
required a host lookup. -/
inductive GetItemResult where
  | cachedPlug (value : PyValue)
  | livePlug (po : PlugObj) (host : HostPlug)

/-- Item access on a node: with the cached qualifier the transient values
dict is consulted first under the pair of key and unit; on a miss, or
without the qualifier, the plug is found through the host and wrapped. -/
def nodeGetItem (n : NodeState) (key : String) (unitArg : Option MUnit)
    (useCached : Bool) : Except CmdxError GetItemResult :=
  match (if useCached then dictLookup (some key, unitArg) n.values else none) with
  | some v => .ok (.cachedPlug v)
  | none =>
      match dictLookup key n.attrs with
      | none => .error .existError
      | some h => .ok (.livePlug ⟨unitArg, some key, none⟩ h)

/-- Plain item assignment on a node: find the plug through the host and
write the value immediately; the Plug object is created without a key. -/
def nodeSetItem (n : NodeState) (key : String) (v : PyValue) :
    Except CmdxError NodeState :=
  match dictLookup key n.attrs with
  | none => .error .existError
  | some h => do
      let r ← plugWrite ⟨none, none, none⟩ h v
      .ok { n with attrs := dictInsert key r.1 n.attrs }

/-- Item access followed by a read, as in evaluating an attribute. -/
def nodeReadItem (n : NodeState) (key : String) (unitArg : Option MUnit) :
    Except CmdxError (PyValue × NodeState) :=
  match nodeGetItem n key unitArg false with
  | .error e => .error e
  | .ok (.cachedPlug v) => .ok (v, n)
  | .ok (.livePlug po h) => plugRead po h n none

/-- Write a value to a fresh plug and immediately read it back with the
same unit, the round-trip composite of the claims below. -/
def writeThenRead (host : HostPlug) (v : PyValue) (u : Option MUnit) :
    Except CmdxError PyValue := do
  let r ← plugWrite ⟨u, none, none⟩ host v
  let rr ← plugRead ⟨u, none, none⟩ r.1 ⟨[], []⟩ none
  .ok rr.1

/-- Capability flags of a native handle, as probed through hasFn. -/
structure MObjectCaps where
  kDagContainer : Bool
  kContainer : Bool
  kDagNode : Bool
  kSet : Bool
  kAnimCurve : Bool
  deriving DecidableEq, Repr

/-- A native handle together with the host handle-validity information:
hashCode is the stable hash, isValid and isAlive are the two host
liveness notions, isNull flags an empty handle. -/
structure MObject where
  hashCode : Nat
  isNull : Bool
  isValid : Bool
  isAlive : Bool
  caps : MObjectCaps
  deriving DecidableEq, Repr

/-- The defensive host-liveness check: null, invalid and removed handles
all count as not alive. -/
def isalive (mobj : MObject) : Bool :=
  if mobj.isNull then false
  else if ¬ mobj.isValid then false
  else if ¬ mobj.isAlive then false
  else true

/-- The wrapper subtypes resolution can construct. -/
inductive WrapperType where
  | containerNode
  | dagNode
  | objectSet
  | animCurve
  | plainNode
  deriving DecidableEq, Repr

/-- Lifecycle callback kinds a wrapper can hold subscriptions for. -/
inductive CallbackKind where
  | nodeDestroyed
  deriving DecidableEq, Repr

/-- One wrapper instance: identity stands for the Python object identity,
destroyed for the flag the destruction callback sets, callbacks for the
subscription tokens held in the transient state. -/
structure Wrapper where
  identity : Nat
  mobject : MObject
  destroyed : Bool
  hashCode : Nat
  callbacks : List CallbackKind
  typ : WrapperType
  deriving DecidableEq, Repr

/-- Probe the capability list in its fixed order to pick the most specific
wrapper subtype. -/
def probeType (m : MObject) : WrapperType :=
  if m.caps.kDagContainer then .containerNode
  else if m.caps.kContainer then .containerNode
  else if m.caps.kDagNode then .dagNode
  else if m.caps.kSet then .objectSet
  else if m.caps.kAnimCurve then .animCurve
  else .plainNode

/-- Construction of a wrapper: the destroyed flag starts false and exactly
one lifecycle callback is subscribed, the destruction monitor. -/
def nodeInit (m : MObject) (ident : Nat) (typ : WrapperType) : Wrapper :=
  { identity := ident
    mobject := m
    destroyed := false
    hashCode := m.hashCode
    callbacks := [CallbackKind.nodeDestroyed]
    typ := typ }

/-- The process-wide identity cache plus the two statistics counters. -/
structure Registry where
  instances : List (Nat × Wrapper)
  nextId : Nat
  nodeReuseCount : Nat
  nodeInitCount : Nat
  deriving DecidableEq, Repr

/-- Resolution through the identity cache: with the exists flag and a
valid handle, a registered non-destroyed wrapper for the stable hash is
returned and the reuse counter incremented; a registered destroyed
wrapper is popped; otherwise a fresh wrapper of the probed subtype is
constructed, registered under the hash, and the init counter ticks. -/
def singletonCall (m : MObject) (existsFlag : Bool) (st : Registry) :
    Wrapper × Registry :=
  let hsh := m.hashCode
  let reusable :=
    if existsFlag && m.isValid then
      match dictLookup hsh st.instances with
      | some w => if w.destroyed then none else some w
      | none => none
    else none
  match reusable with
  | some w => (w, { st with nodeReuseCount := st.nodeReuseCount + 1 })
  | none =>
      let w := nodeInit m st.nextId (probeType m)
      (w, { st with
              instances := dictInsert hsh w st.instances
              nextId := st.nextId + 1
              nodeInitCount := st.nodeInitCount + 1 })

/-- Events that can reach one wrapper after construction: the destruction
callback, the removal and revival of the underlying entity in the host
graph, the transient-state clear, and garbage collection releasing the
callback subscriptions. -/
inductive NodeEvent where
  | onDestroyed
  | hostRemoved
  | hostRevived
  | clearState
  | collect
  deriving DecidableEq, Repr

/-- Effect of one event on a wrapper. The destruction callback only sets
the destroyed flag; no event resets it. -/
def applyNodeEvent : NodeEvent → Wrapper → Wrapper
  | .onDestroyed, w => { w with destroyed := true }
  | .hostRemoved, w => { w with mobject := { w.mobject with isAlive := false } }
  | .hostRevived, w => { w with mobject := { w.mobject with isAlive := true } }
  | .clearState, w => w
  | .collect, w => { w with callbacks := [] }

/-- Run a sequence of events over a wrapper. -/
def runNodeEvents (evs : List NodeEvent) (w : Wrapper) : Wrapper :=
  evs.foldl (fun acc e => applyNodeEvent e acc) w

/-- The removed property: computed from host liveness on every access,
not stored. -/
def Wrapper.removed (w : Wrapper) : Bool :=
  ! isalive w.mobject

/-- The guard wrapping the public entity and channel methods: in rogue
mode the operation runs unchecked; otherwise a destroyed or dead wrapper
fails with an Existence error before the operation runs. -/
def protectedCall {α : Type} (rogueMode : Bool) (f : Wrapper → α)
    (node : Wrapper) : Except CmdxError α :=
  if rogueMode then .ok (f node)
  else if node.destroyed || ! isalive node.mobject then .error .existError
  else .ok (f node)

/-- The destruction callback firing against a registered entry: the
wrapper object stored under the hash has its destroyed flag set. -/
def registryMarkDestroyed (hsh : Nat) (st : Registry) : Registry :=
  { st with
      instances := st.instances.map (fun p =>
        if p.1 = hsh then (p.1, applyNodeEvent .onDestroyed p.2) else p) }

/-- Count of entries registered under one stable hash. -/
def registeredCount (st : Registry) (hsh : Nat) : Nat :=
  (st.instances.filter (fun p => decide (p.1 = hsh))).length

/-- A plug reference used by the transaction layer: a node name and an
attribute name. -/
structure PlugRef where
  node : String
  attr : String
  deriving DecidableEq, Repr

/-- Human-readable form of a plug reference, as captured in histories. -/
def PlugRef.path (p : PlugRef) : String :=
  p.node ++ "." ++ p.attr

theorem plugPairBEq_eq :
    (instBEqProd : BEq (PlugRef × PlugRef)) = instBEqOfDecidableEq := by
  have h : ∀ (a b : PlugRef × PlugRef),
      ((instBEqProd : BEq (PlugRef × PlugRef)).beq a b)
        = ((instBEqOfDecidableEq : BEq (PlugRef × PlugRef)).beq a b) := by
    intro a b
    obtain ⟨a1, a2⟩ := a
    obtain ⟨b1, b2⟩ := b
    by_cases h1 : a1 = b1 <;> by_cases h2 : a2 = b2 <;>
      simp [instBEqProd, instBEqOfDecidableEq, h1, h2]
  have hf : (instBEqProd : BEq (PlugRef × PlugRef)).beq
      = (instBEqOfDecidableEq : BEq (PlugRef × PlugRef)).beq :=
    funext fun a => funext fun b => h a b
  calc (instBEqProd : BEq (PlugRef × PlugRef))
      = BEq.mk (instBEqProd : BEq (PlugRef × PlugRef)).beq := rfl
    _ = BEq.mk (instBEqOfDecidableEq : BEq (PlugRef × PlugRef)).beq := by rw [hf]
    _ = instBEqOfDecidableEq := rfl

theorem plugPairErase_eq (l : List (PlugRef × PlugRef)) (a : PlugRef × PlugRef) :
    @List.erase _ instBEqProd l a = @List.erase _ instBEqOfDecidableEq l a := by
  rw [plugPairBEq_eq]

/-- Edit intents a transaction can queue in the host deferred-edit
mechanism. -/
inductive Intent where
  | createNodeIntent (typ : String) (name : String)
  | connectIntent (src dst : PlugRef)
  | disconnectIntent (src dst : PlugRef)
  deriving DecidableEq, Repr

/-- The host scene graph as the transaction layer observes it: the node
names, the directed plug connections, and the locked plugs. The lists
carry no meaningful order; graph restoration facts below are stated up
to permutation. -/
structure Graph where
  nodes : List String
  connections : List (PlugRef × PlugRef)
  lockedPlugs : List PlugRef
  deriving DecidableEq, Repr

/-- Host execution of one intent; none is a host-reported failure. A
connection requires both endpoint nodes to exist and the edge to be new;
a disconnection requires the edge to exist. -/
def applyIntent : Intent → Graph → Option Graph
  | .createNodeIntent _ n, g => some { g with nodes := n :: g.nodes }
  | .connectIntent s d, g =>
      if s.node ∈ g.nodes ∧ d.node ∈ g.nodes ∧ (s, d) ∉ g.connections then
        some { g with connections := (s, d) :: g.connections }
      else none
  | .disconnectIntent s d, g =>
      if (s, d) ∈ g.connections then
        some { g with connections := g.connections.erase (s, d) }
      else none

/-- The compensating operation of one intent, as the host undo performs
it. -/
def undoIntent : Intent → Graph → Graph
  | .createNodeIntent _ n, g => { g with nodes := g.nodes.erase n }
  | .connectIntent s d, g => { g with connections := g.connections.erase (s, d) }
  | .disconnectIntent s d, g => { g with connections := (s, d) :: g.connections }

/-- Two observations of the host graph with the same entities,
connections and locks, regardless of bookkeeping order. -/
def GraphEquiv (g1 g2 : Graph) : Prop :=
  g1.nodes.Perm g2.nodes ∧ g1.connections.Perm g2.connections
    ∧ g1.lockedPlugs = g2.lockedPlugs

/-- Host doIt over a pending list: intents run in order; on the first
failure, execution stops with the already-applied prefix reported. The
returned Bool is success. -/
def hostDoIt : List Intent → Graph → Graph × List Intent × Bool
  | [], g => (g, [], true)
  | i :: rest, g =>
      match applyIntent i g with
      | none => (g, [], false)
      | some g2 =>
          let r := hostDoIt rest g2
          (r.1, i :: r.2.1, r.2.2)

/-- Host undoIt: compensate every applied intent, most recent first. -/
def hostUndoIt (applied : List Intent) (g : Graph) : Graph :=
  applied.foldr undoIntent g

/-- Configuration options of a transaction. -/
structure ModOpts where
  undoable : Bool
  interesting : Bool
  debug : Bool
  atomic : Bool
  template : Option String
  deriving DecidableEq, Repr

/-- One entry of the diagnostic history: the method name and the captured
representations of its arguments. -/
structure HistEntry where
  cmd : String
  args : List String
  deriving DecidableEq, Repr

/-- State of one transaction object: the intents still pending in the
host modifier, the intents the host modifier has already executed and
can compensate, the diagnostic history, the options, the naming index,
the four pending-extras lists, and the duplicate-attribute guard list. -/
structure ModState where
  pending : List Intent
  applied : List Intent
  history : List HistEntry
  opts : ModOpts
  index : Nat
  lockAttrs : List (PlugRef × Bool)
  keyableAttrs : List (PlugRef × Bool)
  niceNames : List (PlugRef × String)
  animChanges : List Nat
  attributesBeingAdded : List (String × String)
  deriving DecidableEq

/-- A fresh transaction with the given options. -/
def freshMod (opts : ModOpts) : ModState :=
  { pending := [], applied := [], history := [], opts := opts, index := 1
    lockAttrs := [], keyableAttrs := [], niceNames := [], animChanges := []
    attributesBeingAdded := [] }

/-- The history decorator: every recorded method appends its name and
captured argument representations before the body runs. -/
def record (cmd : String) (args : List String) (m : ModState) : ModState :=
  { m with history := m.history ++ [⟨cmd, args⟩] }

/-- Run a list of recorded calls against a transaction, history-wise. -/
def recordCalls (calls : List (String × List String)) (m : ModState) : ModState :=
  calls.foldl (fun acc c => record c.1 c.2 acc) m

/-- Errors of the transaction layer; the modifier error carries the full
ordered diagnostic history for post-mortem enumeration. -/
inductive ModError where
  | modifierError (history : List HistEntry)
  | modLockedError
  | modRuntimeError
  deriving DecidableEq, Repr

/-- Transaction commit: flush the pending intents through the host; on
success clear the history and the duplicate-attribute guard; on a host
failure, compensate everything the host modifier has applied when the
atomic option is set, then raise the modifier error carrying the
history. -/
def modDoIt (m : ModState) (g : Graph) :
    Except (ModError × Graph) (ModState × Graph) :=
  match hostDoIt m.pending g with
  | (g2, ap, true) =>
      .ok ({ m with
               pending := []
               applied := m.applied ++ ap
               history := []
               attributesBeingAdded := [] }, g2)
  | (g2, ap, false) =>
      let g3 := if m.opts.atomic then hostUndoIt (m.applied ++ ap) g2 else g2
      .error (.modifierError m.history, g3)

/-- Formatting of the naming template with name, type and index. -/
def formatTemplate (t : String) (nm typ : String) (index : Nat) : String :=
  ((t.replace "{name}" nm).replace "{type}" typ).replace "{index}" (toString index)

/-- The createNode edit: record history, queue the create intent under the
templated name, then eagerly flush the host modifier so the created node
is immediately alive, and advance the naming index. -/
def modCreateNode (typ nm : String) (m : ModState) (g : Graph) :
    Except (ModError × Graph) (ModState × Graph) :=
  let m1 := record "createNode" [typ, nm] m
  let finalName :=
    match m1.opts.template with
    | some t => formatTemplate t nm typ m1.index
    | none => nm
  let m2 := { m1 with pending := m1.pending ++ [Intent.createNodeIntent typ finalName] }
  match hostDoIt m2.pending g with
  | (g2, ap, true) =>
      .ok ({ m2 with pending := [], applied := m2.applied ++ ap,
                     index := m2.index + 1 }, g2)
  | (g2, _, false) => .error (.modRuntimeError, g2)

/-- The connect edit: record history; a locked destination fails with a
Locked error up front; with force, every incoming connection of the
destination is queued for disconnection and, when there was at least
one, the host modifier is flushed before anything else, working around
the host undo corruption; finally the connect intent itself is queued. -/
def modConnect (src dst : PlugRef) (force : Bool) (m : ModState) (g : Graph) :
    Except (ModError × Graph) (ModState × Graph) :=
  let m1 := record "connect" [src.path, dst.path] m
  if dst ∈ g.lockedPlugs then
    .error (.modLockedError, g)
  else
    let sources :=
      if force then
        (g.connections.filter (fun pr => decide (pr.2 = dst))).map (fun pr => pr.1)
      else []
    let m2 := sources.foldl (fun acc s =>
        let acc1 := record "disconnect" [s.path, dst.path] acc
        { acc1 with pending := acc1.pending ++ [Intent.disconnectIntent s dst] }) m1
    if sources.isEmpty then
      .ok ({ m2 with pending := m2.pending ++ [Intent.connectIntent src dst] }, g)
    else
      match hostDoIt m2.pending g with
      | (g2, ap, true) =>
          .ok ({ m2 with pending := [Intent.connectIntent src dst],
                         applied := m2.applied ++ ap }, g2)
      | (g2, _, false) => .error (.modRuntimeError, g2)

/-- The process-wide shared slot of the undo bridge: the two pending
identifiers, and the two identifier-to-closure maps. Closures are
modelled by their identifiers, which the bridge derives from object
identity. -/
structure SharedSlot where
  undoId : Option Nat
  redoId : Option Nat
  undos : List (Nat × Nat)
  redos : List (Nat × Nat)
  deriving DecidableEq, Repr

/-- The bridge module state: the shared slot, whether the adapter command
is installed in the host command table, the ordered log of closures the
host invoked so far, and the count of logged slot-reentrancy warnings. -/
structure BridgeState where
  shared : SharedSlot
  installed : Bool
  callLog : List Nat
  warnCount : Nat
  deriving DecidableEq, Repr

/-- One instance of the adapter command as the host retains it on its
native undo queue: the pair of identifiers its do phase captured. -/
structure ApiUndoCmd where
  undoId : Option Nat
  redoId : Option Nat
  deriving DecidableEq, Repr

/-- A fresh bridge state. -/
def freshBridge : BridgeState :=
  { shared := { undoId := none, redoId := none, undos := [], redos := [] }
    installed := false, callLog := [], warnCount := 0 }

/-- The commit entry point of the undo bridge: with undo disabled it is a
no-op; otherwise the adapter command is installed on demand, a non-empty
slot is logged as a reentrancy warning but not enforced, the closures
are stored under their identifiers and the two pending identifiers set,
and the command is invoked, whose do phase runs synchronously: it
captures both pending identifiers into the command instance and clears
the slot. The host retains the returned command instance. -/
def bridgeCommit (enableUndo : Bool) (undoFn redoFn : Nat) (st : BridgeState) :
    Option ApiUndoCmd × BridgeState :=
  if ¬ enableUndo then (none, st)
  else
    let st1 := if ¬ st.installed then { st with installed := true } else st
    let st2 :=
      if st1.shared.undoId ≠ none ∨ st1.shared.redoId ≠ none then
        { st1 with warnCount := st1.warnCount + 1 }
      else st1
    let slot :=
      { st2.shared with
          undoId := some undoFn
          redoId := some redoFn
          undos := dictInsert undoFn undoFn st2.shared.undos
          redos := dictInsert redoFn redoFn st2.shared.redos }
    let cmd : ApiUndoCmd := { undoId := slot.undoId, redoId := slot.redoId }
    let slot2 := { slot with undoId := none, redoId := none }
    (some cmd, { st2 with shared := slot2 })

/-- The undo phase of the adapter command, as the host runs it during
native undo navigation: look the undo closure up by the captured
identifier and invoke it. A missing identifier is a lookup failure. -/
def bridgeUndoIt (cmd : ApiUndoCmd) (st : BridgeState) :
    Except CmdxError BridgeState :=
  match cmd.undoId with
  | none => .error .runtimeError
  | some i =>
      match dictLookup i st.shared.undos with
      | none => .error .runtimeError
      | some fn => .ok { st with callLog := st.callLog ++ [fn] }

/-- The redo phase of the adapter command, dual to the undo phase. -/
def bridgeRedoIt (cmd : ApiUndoCmd) (st : BridgeState) :
    Except CmdxError BridgeState :=
  match cmd.redoId with
  | none => .error .runtimeError
  | some i =>
      match dictLookup i st.shared.redos with
      | none => .error .runtimeError
      | some fn => .ok { st with callLog := st.callLog ++ [fn] }

/-! Shared lemmas. -/

instance exceptDecEq {ε α : Type} [DecidableEq ε] [DecidableEq α] :
    DecidableEq (Except ε α)
  | .error e1, .error e2 =>
      match decEq e1 e2 with
      | isTrue h => isTrue (by rw [h])
      | isFalse h => isFalse (fun hx => by injection hx; exact h ‹_›)
  | .error _, .ok _ => isFalse (fun hx => Except.noConfusion hx)
  | .ok _, .error _ => isFalse (fun hx => Except.noConfusion hx)
  | .ok a1, .ok a2 =>
      match decEq a1 a2 with
      | isTrue h => isTrue (by rw [h])
      | isFalse h => isFalse (fun hx => by injection hx; exact h ‹_›)

theorem dictLookup_dictInsert {κ α : Type} [DecidableEq κ] (k : κ) (v : α)
    (l : List (κ × α)) : dictLookup k (dictInsert k v l) = some v := by
  simp [dictInsert, dictLookup]

theorem registeredCount_dictInsert (k : Nat) (w : Wrapper)
    (l : List (Nat × Wrapper)) (h : Nat)
    (hle : (l.filter (fun p => decide (p.1 = h))).length ≤ 1) :
    ((dictInsert k w l).filter (fun p => decide (p.1 = h))).length ≤ 1 := by
  have hsub : List.Sublist
      ((l.filter (fun p => decide (p.1 ≠ k))).filter (fun p => decide (p.1 = h)))
      (l.filter (fun p => decide (p.1 = h))) :=
    (List.filter_sublist l).filter _
  by_cases hk : k = h
  · subst hk
    have h0 : (l.filter (fun p => decide (p.1 ≠ k))).filter
        (fun p => decide (p.1 = k)) = [] := by
      apply List.filter_eq_nil_iff.mpr
      intro p hp
      have := List.of_mem_filter hp
      simpa using this
    have h1 : (dictInsert k w l).filter (fun p => decide (p.1 = k))
        = [(k, w)] := by
      simp only [dictInsert, List.filter_cons]
      rw [if_pos (by simp), h0]
    simp [h1]
  · have h1 : (dictInsert k w l).filter (fun p => decide (p.1 = h))
        = (l.filter (fun p => decide (p.1 ≠ k))).filter
            (fun p => decide (p.1 = h)) := by
      simp only [dictInsert, List.filter_cons]
      rw [if_neg (by simpa using hk)]
    rw [h1]
    exact le_trans hsub.length_le hle

theorem destroyed_stays (e : NodeEvent) (w : Wrapper)
    (h : w.destroyed = true) : (applyNodeEvent e w).destroyed = true := by
  cases e <;> simp [applyNodeEvent, h]

theorem runNodeEvents_destroyed (evs : List NodeEvent) (w : Wrapper)
    (h : w.destroyed = true) : (runNodeEvents evs w).destroyed = true := by
  induction evs generalizing w with
  | nil => simpa [runNodeEvents]
  | cons e rest ih =>
      simp only [runNodeEvents, List.foldl_cons] at *
      exact ih _ (destroyed_stays e w h)

/-- C1: resolving a valid native handle twice without an intervening
destruction yields the identical wrapper object, the reuse counter
increments on the second call, and any resolution preserves the
invariant that at most one wrapper is registered per stable hash. -/
theorem singleton_resolve_identity (m : MObject) (st : Registry)
    (hvalid : m.isValid = true) :
    (singletonCall m true (singletonCall m true st).2).1
        = (singletonCall m true st).1
    ∧ (singletonCall m true (singletonCall m true st).2).2.nodeReuseCount
        = (singletonCall m true st).2.nodeReuseCount + 1
    ∧ ∀ (st2 : Registry) (m2 : MObject) (ex : Bool) (hsh : Nat),
        registeredCount st2 hsh ≤ 1 →
        registeredCount (singletonCall m2 ex st2).2 hsh ≤ 1 := by
  refine ⟨?_, ?_, ?_⟩
  case _ =>
    simp only [singletonCall, hvalid, Bool.and_self, if_true]
    cases hl : dictLookup m.hashCode st.instances with
    | none => simp [hl, dictLookup_dictInsert, nodeInit]
    | some w =>
        by_cases hd : w.destroyed
        · simp [hl, hd, dictLookup_dictInsert, nodeInit]
        · simp [hl, hd]
  case _ =>
    simp only [singletonCall, hvalid, Bool.and_self, if_true]
    cases hl : dictLookup m.hashCode st.instances with
    | none => simp [hl, dictLookup_dictInsert, nodeInit]
    | some w =>
        by_cases hd : w.destroyed
        · simp [hl, hd, dictLookup_dictInsert, nodeInit]
        · simp [hl, hd]
  case _ =>
    intro st2 m2 ex hsh hle
    simp only [registeredCount] at hle ⊢
    simp only [singletonCall]
    split
    · simpa using hle
    · exact registeredCount_dictInsert _ _ _ _ hle

/-- C3: after the destruction callback fires the destroyed flag is true
and stays true under every subsequent event, and every guarded operation
on the wrapper fails with an Existence error, the guard being skipped
exactly in rogue mode. -/
theorem destroyed_finality (w : Wrapper) (evs : List NodeEvent)
    {α : Type} (f : Wrapper → α) :
    (runNodeEvents evs (applyNodeEvent .onDestroyed w)).destroyed = true
    ∧ protectedCall false f (runNodeEvents evs (applyNodeEvent .onDestroyed w))
        = .error .existError
    ∧ protectedCall true f (runNodeEvents evs (applyNodeEvent .onDestroyed w))
        = .ok (f (runNodeEvents evs (applyNodeEvent .onDestroyed w))) := by
  have hd : (runNodeEvents evs (applyNodeEvent .onDestroyed w)).destroyed = true :=
    runNodeEvents_destroyed evs _ (by simp [applyNodeEvent])
  refine ⟨hd, ?_, ?_⟩
  · simp [protectedCall, hd]
  · simp [protectedCall]

/-- A concrete valid handle used by witnesses. -/
def demoMObject : MObject :=
  { hashCode := 7, isNull := false, isValid := true, isAlive := true
    caps := ⟨false, false, true, false, false⟩ }

/-- The empty identity cache. -/
def emptyRegistry : Registry := ⟨[], 0, 0, 0⟩

/-- Witness for C1: the identity, counter and invariant facts at a
concrete valid handle and the empty registry. -/
theorem singleton_resolve_identity_witness :
    ((singletonCall demoMObject true
        (singletonCall demoMObject true emptyRegistry).2).1
      = (singletonCall demoMObject true emptyRegistry).1)
    ∧ ((singletonCall demoMObject true
          (singletonCall demoMObject true emptyRegistry).2).2.nodeReuseCount
        = (singletonCall demoMObject true emptyRegistry).2.nodeReuseCount + 1)
    ∧ registeredCount (singletonCall demoMObject true emptyRegistry).2 7 ≤ 1 :=
  ⟨(singleton_resolve_identity demoMObject emptyRegistry rfl).1,
   (singleton_resolve_identity demoMObject emptyRegistry rfl).2.1,
   (singleton_resolve_identity demoMObject emptyRegistry rfl).2.2
     emptyRegistry demoMObject true 7 (by decide)⟩

/-- C4 counterexample: construction of a new wrapper subscribes exactly
one lifecycle callback, the destruction monitor, not two; there is no
separate removal callback. -/
theorem node_init_callbacks_counterexample :
    ((singletonCall demoMObject true emptyRegistry).1.callbacks.length = 2 → False)
    ∧ (singletonCall demoMObject true emptyRegistry).1.callbacks
        = [CallbackKind.nodeDestroyed] := by
  decide

theorem dictLookup_mark_map (hsh : Nat) (l : List (Nat × Wrapper)) :
    dictLookup hsh (l.map (fun p =>
        if p.1 = hsh then (p.1, applyNodeEvent .onDestroyed p.2) else p))
      = (dictLookup hsh l).map (applyNodeEvent .onDestroyed) := by
  induction l with
  | nil => simp [dictLookup]
  | cons p rest ih =>
      obtain ⟨k, w⟩ := p
      simp only [List.map_cons]
      by_cases hp : k = hsh
      · subst hp
        rw [if_pos rfl]
        simp [dictLookup]
      · rw [if_neg hp]
        simp [dictLookup, hp, ih]

theorem singletonCall_not_destroyed (m : MObject) (ex : Bool) (st : Registry) :
    (singletonCall m ex st).1.destroyed = false := by
  simp only [singletonCall]
  split
  next w heq =>
    by_cases hc : (ex && m.isValid) = true
    · rw [if_pos hc] at heq
      cases hl : dictLookup m.hashCode st.instances with
      | none => rw [hl] at heq; simp at heq
      | some w2 =>
          rw [hl] at heq
          by_cases hd : w2.destroyed = true
          · simp [hd] at heq
          · simp only [hd, Bool.false_eq_true, if_false, Option.some.injEq] at heq
            subst heq
            simpa using hd
    · rw [if_neg hc] at heq; simp at heq
  next heq => simp [nodeInit]

/-- C4 amended: a resolution that constructs a new wrapper subscribes one
host lifecycle callback, the destruction monitor, whose firing sets
destroyed to true; the removed state is a property computed from host
liveness, not a flag set by a callback; callback subscriptions are
released by the garbage-collection hook; and a destroyed registry entry
is evicted lazily, being replaced by a fresh non-destroyed wrapper on
the next resolution of the same hash. -/
theorem node_lifecycle_callbacks (m : MObject) (st : Registry)
    (hfresh : dictLookup m.hashCode st.instances = none) :
    ((singletonCall m true st).1.callbacks = [CallbackKind.nodeDestroyed])
    ∧ ((applyNodeEvent .onDestroyed (singletonCall m true st).1).destroyed = true)
    ∧ ((singletonCall m true st).1.removed = ! isalive m)
    ∧ ((applyNodeEvent .collect (singletonCall m true st).1).callbacks = [])
    ∧ dictLookup m.hashCode
        (registryMarkDestroyed m.hashCode (singletonCall m true st).2).instances
        = some (applyNodeEvent .onDestroyed (singletonCall m true st).1)
    ∧ (singletonCall m true
        (registryMarkDestroyed m.hashCode (singletonCall m true st).2)).1.destroyed
        = false := by
  have hcon : singletonCall m true st
      = (nodeInit m st.nextId (probeType m),
         { st with
             instances := dictInsert m.hashCode
               (nodeInit m st.nextId (probeType m)) st.instances
             nextId := st.nextId + 1
             nodeInitCount := st.nodeInitCount + 1 }) := by
    cases hv : m.isValid <;> simp [singletonCall, hv, hfresh]
  have hmark : dictLookup m.hashCode
      (registryMarkDestroyed m.hashCode (singletonCall m true st).2).instances
      = some (applyNodeEvent .onDestroyed (singletonCall m true st).1) := by
    rw [hcon]
    simp only [registryMarkDestroyed, dictLookup_mark_map]
    simp [dictLookup_dictInsert]
  refine ⟨?_, ?_, ?_, ?_, hmark, ?_⟩
  · rw [hcon]; simp [nodeInit]
  · simp [applyNodeEvent]
  · rw [hcon]; simp [nodeInit, Wrapper.removed, isalive]
  · rw [hcon]; simp [nodeInit, applyNodeEvent]
  · exact singletonCall_not_destroyed m true _

/-- Witness for C4 amended, at a concrete handle and the empty registry. -/
theorem node_lifecycle_callbacks_witness :
    ((singletonCall demoMObject true emptyRegistry).1.callbacks
        = [CallbackKind.nodeDestroyed])
    ∧ ((applyNodeEvent .onDestroyed
          (singletonCall demoMObject true emptyRegistry).1).destroyed = true)
    ∧ ((singletonCall demoMObject true emptyRegistry).1.removed
        = ! isalive demoMObject)
    ∧ ((applyNodeEvent .collect
          (singletonCall demoMObject true emptyRegistry).1).callbacks = [])
    ∧ dictLookup demoMObject.hashCode
        (registryMarkDestroyed demoMObject.hashCode
          (singletonCall demoMObject true emptyRegistry).2).instances
        = some (applyNodeEvent .onDestroyed
            (singletonCall demoMObject true emptyRegistry).1)
    ∧ (singletonCall demoMObject true
        (registryMarkDestroyed demoMObject.hashCode
          (singletonCall demoMObject true emptyRegistry).2)).1.destroyed
        = false :=
  node_lifecycle_callbacks demoMObject emptyRegistry (by decide)

/-- C5: the undo bridge commit stores the two closures, the do phase of
the invoked command captures both identifiers into the command instance
and clears the shared slot, and the subsequent host undo then redo
invoke the undo closure exactly once and then the redo closure exactly
once, in that order. -/
theorem bridge_commit_roundtrip (f g : Nat) (st : BridgeState) :
    (bridgeCommit true f g st).1 = some ⟨some f, some g⟩
    ∧ (bridgeCommit true f g st).2.shared.undoId = none
    ∧ (bridgeCommit true f g st).2.shared.redoId = none
    ∧ ∃ st2 st3,
        bridgeUndoIt ⟨some f, some g⟩ (bridgeCommit true f g st).2 = .ok st2
        ∧ bridgeRedoIt ⟨some f, some g⟩ st2 = .ok st3
        ∧ st3.callLog = st.callLog ++ [f, g] := by
  have hsh : ((bridgeCommit true f g st).2.shared.undos
        = dictInsert f f ((if ¬ st.installed then { st with installed := true }
            else st).shared.undos))
      ∧ ((bridgeCommit true f g st).2.shared.redos
        = dictInsert g g ((if ¬ st.installed then { st with installed := true }
            else st).shared.redos))
      ∧ ((bridgeCommit true f g st).2.callLog = st.callLog) := by
    by_cases hin : st.installed <;>
      by_cases hslot : st.shared.undoId ≠ none ∨ st.shared.redoId ≠ none <;>
        simp [bridgeCommit, hin, hslot]
  refine ⟨?_, ?_, ?_, ?_⟩
  · by_cases hin : st.installed <;>
      by_cases hslot : st.shared.undoId ≠ none ∨ st.shared.redoId ≠ none <;>
        simp [bridgeCommit, hin, hslot]
  · by_cases hin : st.installed <;>
      by_cases hslot : st.shared.undoId ≠ none ∨ st.shared.redoId ≠ none <;>
        simp [bridgeCommit, hin, hslot]
  · by_cases hin : st.installed <;>
      by_cases hslot : st.shared.undoId ≠ none ∨ st.shared.redoId ≠ none <;>
        simp [bridgeCommit, hin, hslot]
  · refine ⟨{ (bridgeCommit true f g st).2 with callLog := st.callLog ++ [f] },
           { (bridgeCommit true f g st).2 with callLog := st.callLog ++ [f, g] },
           ?_, ?_, ?_⟩
    · simp only [bridgeUndoIt, hsh.1, dictLookup_dictInsert, hsh.2.2]
    · simp only [bridgeRedoIt, hsh.2.1, dictLookup_dictInsert]
      simp
    · rfl

/-! Transaction lemmas: every host-applied intent is exactly compensated
by its undo, and a full doIt prefix unwinds to the starting graph. -/

theorem graphEquiv_refl (g : Graph) : GraphEquiv g g :=
  ⟨List.Perm.refl _, List.Perm.refl _, rfl⟩

theorem graphEquiv_trans {g1 g2 g3 : Graph} (h1 : GraphEquiv g1 g2)
    (h2 : GraphEquiv g2 g3) : GraphEquiv g1 g3 :=
  ⟨h1.1.trans h2.1, h1.2.1.trans h2.2.1, h1.2.2.trans h2.2.2⟩

theorem undoIntent_congr (i : Intent) {g g2 : Graph} (h : GraphEquiv g g2) :
    GraphEquiv (undoIntent i g) (undoIntent i g2) := by
  obtain ⟨hn, hc, hl⟩ := h
  cases i with
  | createNodeIntent t n =>
      simp only [GraphEquiv, undoIntent]
      exact ⟨hn.erase n, hc, hl⟩
  | connectIntent s d =>
      simp only [GraphEquiv, undoIntent, plugPairErase_eq]
      exact ⟨hn, hc.erase (s, d), hl⟩
  | disconnectIntent s d =>
      simp only [GraphEquiv, undoIntent]
      exact ⟨hn, hc.cons (s, d), hl⟩

theorem undo_applyIntent (i : Intent) (g g2 : Graph)
    (h : applyIntent i g = some g2) : GraphEquiv (undoIntent i g2) g := by
  cases i with
  | createNodeIntent t n =>
      simp only [applyIntent, Option.some.injEq] at h
      subst h
      simp only [undoIntent, List.erase_cons_head]
      exact graphEquiv_refl g
  | connectIntent s d =>
      simp only [applyIntent] at h
      by_cases hc : s.node ∈ g.nodes ∧ d.node ∈ g.nodes ∧ (s, d) ∉ g.connections
      · rw [if_pos hc] at h
        injection h with h
        subst h
        simp only [undoIntent, List.erase_cons_head]
        exact graphEquiv_refl g
      · rw [if_neg hc] at h
        exact absurd h (by simp)
  | disconnectIntent s d =>
      simp only [applyIntent] at h
      by_cases hc : (s, d) ∈ g.connections
      · rw [if_pos hc] at h
        injection h with h
        subst h
        simp only [GraphEquiv, undoIntent, plugPairErase_eq]
        exact ⟨List.Perm.refl _, (List.perm_cons_erase hc).symm, trivial⟩
      · rw [if_neg hc] at h
        exact absurd h (by simp)

theorem hostUndoIt_congr (l : List Intent) {g g2 : Graph}
    (h : GraphEquiv g g2) : GraphEquiv (hostUndoIt l g) (hostUndoIt l g2) := by
  induction l with
  | nil => exact h
  | cons i rest ih =>
      simp only [hostUndoIt, List.foldr_cons] at *
      exact undoIntent_congr i ih

theorem hostDoIt_undo (ops : List Intent) (g : Graph) :
    GraphEquiv (hostUndoIt (hostDoIt ops g).2.1 (hostDoIt ops g).1) g := by
  induction ops generalizing g with
  | nil =>
      simp only [hostDoIt, hostUndoIt, List.foldr_nil]
      exact graphEquiv_refl g
  | cons i rest ih =>
      simp only [hostDoIt]
      cases ha : applyIntent i g with
      | none =>
          simp only [hostUndoIt, List.foldr_nil]
          exact graphEquiv_refl g
      | some g2 =>
          simp only [hostUndoIt, List.foldr_cons]
          have h2 : GraphEquiv
              (List.foldr undoIntent (hostDoIt rest g2).1 (hostDoIt rest g2).2.1)
              g2 := ih g2
          exact graphEquiv_trans (undoIntent_congr i h2) (undo_applyIntent i g g2 ha)

theorem hostUndoIt_append (a b : List Intent) (g : Graph) :
    hostUndoIt (a ++ b) g = hostUndoIt a (hostUndoIt b g) := by
  simp [hostUndoIt, List.foldr_append]

/-- C2: a commit with atomic rollback enabled that the host fails
partway through compensates every intent this transaction has applied
before re-raising, restoring the pre-transaction graph, and the raised
error carries the full ordered history of the attempted intents. -/
theorem mod_commit_atomic_rollback (m : ModState) (g g0 : Graph)
    (e : ModError) (gerr : Graph)
    (hatomic : m.opts.atomic = true)
    (hpre : hostUndoIt m.applied g = g0)
    (hfail : modDoIt m g = .error (e, gerr)) :
    e = .modifierError m.history ∧ GraphEquiv gerr g0 := by
  rcases hhd : hostDoIt m.pending g with ⟨g2, ap, done⟩
  rw [modDoIt, hhd] at hfail
  cases done with
  | true => exact absurd hfail (by simp)
  | false =>
      simp only [Except.error.injEq, Prod.mk.injEq] at hfail
      obtain ⟨he, hg⟩ := hfail
      refine ⟨he.symm, ?_⟩
      have hap : GraphEquiv (hostUndoIt ap g2) g := by
        have := hostDoIt_undo m.pending g
        rw [hhd] at this
        exact this
      rw [← hg, hatomic]
      simp only [if_true, hostUndoIt_append]
      rw [← hpre]
      exact hostUndoIt_congr m.applied hap

/-- Options of a transaction requesting atomic rollback, used by
witnesses. -/
def atomicOpts : ModOpts :=
  { undoable := true, interesting := true, debug := true, atomic := true
    template := none }

/-- The empty host graph. -/
def emptyGraph : Graph := ⟨[], [], []⟩

/-- A connection whose endpoints exist on no node, so the host rejects it
at commit. -/
def badSrc : PlugRef := ⟨"ghost", "out"⟩

def badDst : PlugRef := ⟨"phantom", "in"⟩

/-- The transaction state after creating entity X, for the witnesses. -/
def c2state1 : ModState × Graph :=
  match modCreateNode "transform" "X" (freshMod atomicOpts) emptyGraph with
  | .ok r => r
  | .error _ => (freshMod atomicOpts, emptyGraph)

/-- The transaction state after additionally queueing the invalid
connection. -/
def c2state2 : ModState × Graph :=
  match modConnect badSrc badDst true c2state1.1 c2state1.2 with
  | .ok r => r
  | .error _ => c2state1

/-- The failed-commit outcome of the scenario. -/
def c2result : ModError × Graph :=
  match modDoIt c2state2.1 c2state2.2 with
  | .error r => r
  | .ok _ => (.modRuntimeError, emptyGraph)

theorem recordCalls_history (calls : List (String × List String))
    (m : ModState) :
    (recordCalls calls m).history
      = m.history ++ calls.map (fun c => ⟨c.1, c.2⟩) := by
  induction calls generalizing m with
  | nil => simp [recordCalls]
  | cons c rest ih =>
      simp [recordCalls, record] at *
      rw [ih]
      simp

/-- C10: a successful commit empties the diagnostic history while leaving
the configuration and the pending-extras lists unchanged, so an error
raised by a later failing commit of the same transaction enumerates
exactly the intents recorded since that success. -/
theorem mod_commit_success_frame (m : ModState) (g : Graph)
    (m2 : ModState) (g2 : Graph)
    (hok : modDoIt m g = .ok (m2, g2)) :
    m2.history = [] ∧ m2.opts = m.opts ∧ m2.index = m.index
    ∧ m2.lockAttrs = m.lockAttrs ∧ m2.keyableAttrs = m.keyableAttrs
    ∧ m2.niceNames = m.niceNames ∧ m2.animChanges = m.animChanges
    ∧ ∀ (calls : List (String × List String)) (newPending : List Intent)
        (e : ModError) (gerr : Graph),
        modDoIt (recordCalls calls { m2 with pending := newPending }) g2
          = .error (e, gerr) →
        e = .modifierError (calls.map (fun c => ⟨c.1, c.2⟩)) := by
  rcases hhd : hostDoIt m.pending g with ⟨gx, ap, done⟩
  rw [modDoIt, hhd] at hok
  cases done with
  | false => exact absurd hok (by simp)
  | true =>
      simp only [Except.ok.injEq, Prod.mk.injEq] at hok
      obtain ⟨hm2, _⟩ := hok
      have hfields : m2.history = [] ∧ m2.opts = m.opts ∧ m2.index = m.index
          ∧ m2.lockAttrs = m.lockAttrs ∧ m2.keyableAttrs = m.keyableAttrs
          ∧ m2.niceNames = m.niceNames ∧ m2.animChanges = m.animChanges := by
        rw [← hm2]
        simp
      refine ⟨hfields.1, hfields.2.1, hfields.2.2.1, hfields.2.2.2.1,
        hfields.2.2.2.2.1, hfields.2.2.2.2.2.1, hfields.2.2.2.2.2.2, ?_⟩
      intro calls newPending e gerr hfail2
      rcases hhd2 : hostDoIt (recordCalls calls { m2 with pending := newPending }).pending g2
        with ⟨gy, ap2, done2⟩
      rw [modDoIt, hhd2] at hfail2
      cases done2 with
      | true => exact absurd hfail2 (by simp)
      | false =>
          simp only [Except.error.injEq, Prod.mk.injEq] at hfail2
          rw [← hfail2.1]
          rw [recordCalls_history, hfields.1]
          simp

/-- Witness for C2: the transaction that creates entity X and then fails
on an invalid connection rolls the host graph back to empty, leaving no
entity X, and the error enumerates the full history. -/
theorem mod_commit_atomic_rollback_witness :
    c2result.1 = .modifierError c2state2.1.history
    ∧ GraphEquiv c2result.2 emptyGraph
    ∧ "X" ∈ c2state2.2.nodes
    ∧ "X" ∉ c2result.2.nodes := by
  have h := mod_commit_atomic_rollback c2state2.1 c2state2.2 emptyGraph
      c2result.1 c2result.2 (by decide) (by decide) (by decide)
  exact ⟨h.1, h.2, by decide, by decide⟩

/-- The successfully committed first stage of the C10 witness scenario. -/
def c10state1 : ModState × Graph :=
  match modDoIt c2state1.1 c2state1.2 with
  | .ok r => r
  | .error _ => c2state1

/-- Witness for C10: after the successful commit the history is empty and
the configuration is untouched, and a later failing commit enumerates
only the calls recorded after the success. -/
theorem mod_commit_success_frame_witness :
    c10state1.1.history = [] ∧ c10state1.1.opts = c2state1.1.opts
    ∧ (modDoIt (recordCalls [("connect", [badSrc.path, badDst.path])]
        { c10state1.1 with pending := [Intent.connectIntent badSrc badDst] })
        c10state1.2
      = .error (.modifierError [⟨"connect", [badSrc.path, badDst.path]⟩],
          emptyGraph)) := by
  have h := mod_commit_success_frame c2state1.1 c2state1.2
      c10state1.1 c10state1.2 (by decide)
  exact ⟨h.1, h.2.1, by decide⟩

theorem hostDoIt_disc_cons (dst : PlugRef) (p : PlugRef × PlugRef)
    (hp : ¬ p.2 = dst) (S : List PlugRef) :
    ∀ (x : List (PlugRef × PlugRef)) (nodes : List String)
      (locked : List PlugRef),
    hostDoIt (S.map (fun s => Intent.disconnectIntent s dst))
        ⟨nodes, p :: x, locked⟩
      = ((⟨nodes,
            p :: (hostDoIt (S.map (fun s => Intent.disconnectIntent s dst))
              ⟨nodes, x, locked⟩).1.connections, locked⟩ : Graph),
         (hostDoIt (S.map (fun s => Intent.disconnectIntent s dst))
           ⟨nodes, x, locked⟩).2.1,
         (hostDoIt (S.map (fun s => Intent.disconnectIntent s dst))
           ⟨nodes, x, locked⟩).2.2) := by
  induction S with
  | nil => intro x nodes locked; simp [hostDoIt]
  | cons s S2 ih =>
      intro x nodes locked
      have hne : ¬ ((s, dst) = p) := by
        intro hx
        exact hp (by rw [← hx])
      simp only [List.map_cons, hostDoIt, applyIntent]
      by_cases hmem : (s, dst) ∈ x
      · rw [if_pos (List.mem_cons_of_mem p hmem), if_pos hmem]
        have herase : (p :: x).erase (s, dst) = p :: x.erase (s, dst) := by
          rw [List.erase_cons_tail]
          simp only [beq_iff_eq]
          intro hx
          exact hne hx.symm
        simp only [herase]
        rw [ih (x.erase (s, dst)) nodes locked]
      · have hmem2 : ¬ ((s, dst) ∈ p :: x) := by
          intro hx
          rcases List.mem_cons.mp hx with h1 | h2
          · exact hne h1
          · exact hmem h2
        rw [if_neg hmem2, if_neg hmem]

theorem hostDoIt_disconnect_filter (dst : PlugRef)
    (c : List (PlugRef × PlugRef)) (nodes : List String)
    (locked : List PlugRef) :
    hostDoIt (((c.filter (fun pr => decide (pr.2 = dst))).map (fun pr => pr.1)).map
        (fun s => Intent.disconnectIntent s dst)) ⟨nodes, c, locked⟩
      = (⟨nodes, c.filter (fun pr => decide (¬ pr.2 = dst)), locked⟩,
         ((c.filter (fun pr => decide (pr.2 = dst))).map (fun pr => pr.1)).map
           (fun s => Intent.disconnectIntent s dst), true) := by
  induction c with
  | nil => simp [hostDoIt]
  | cons p rest ih =>
      by_cases hp2 : p.2 = dst
      · have hpeta : p = (p.1, dst) := by
          obtain ⟨p1, p2⟩ := p
          simp only at hp2
          rw [hp2]
        have hT : (decide (p.2 = dst)) = true := by simp [hp2]
        have hF : (decide (¬ p.2 = dst)) = false := by simp [hp2]
        simp only [List.filter_cons, hT, hF, if_true, Bool.false_eq_true,
          if_false, List.map_cons]
        simp only [hostDoIt, applyIntent]
        have hmem : ((p.1, dst) : PlugRef × PlugRef) ∈ p :: rest := by
          rw [← hpeta]; exact List.mem_cons_self p rest
        rw [if_pos hmem]
        have herase : (p :: rest).erase (p.1, dst) = rest := by
          rw [hpeta, List.erase_cons_head]
        simp only [herase, ih]
      · have hT : (decide (p.2 = dst)) = false := by simp [hp2]
        have hF : (decide (¬ p.2 = dst)) = true := by simp [hp2]
        simp only [List.filter_cons, hT, hF, Bool.false_eq_true, if_false,
          if_true]
        rw [hostDoIt_disc_cons dst p hp2 _ rest nodes locked, ih]

theorem foldDisc_fields (dst : PlugRef) (sources : List PlugRef)
    (m1 : ModState) :
    (sources.foldl (fun acc s =>
        let acc1 := record "disconnect" [s.path, dst.path] acc
        { acc1 with pending := acc1.pending ++ [Intent.disconnectIntent s dst] })
          m1).pending
        = m1.pending ++ sources.map (fun s => Intent.disconnectIntent s dst)
    ∧ (sources.foldl (fun acc s =>
        let acc1 := record "disconnect" [s.path, dst.path] acc
        { acc1 with pending := acc1.pending ++ [Intent.disconnectIntent s dst] })
          m1).applied = m1.applied := by
  induction sources generalizing m1 with
  | nil => simp
  | cons s rest ih =>
      simp only [List.foldl_cons, List.map_cons]
      constructor
      · rw [(ih _).1]
        simp [record, List.append_assoc]
      · rw [(ih _).2]
        simp [record]

/-- C7: a transaction connect with force whose destination has incoming
connections queues a disconnection for each of them and flushes those
edits to the host strictly before the new connection intent is issued:
afterwards the host graph holds no incoming connection to the
destination, the disconnections are among the host-applied edits, and
the connect intent alone is still pending. -/
theorem mod_connect_force_flush (src dst : PlugRef) (m : ModState) (g : Graph)
    (hlock : dst ∉ g.lockedPlugs)
    (hpend : m.pending = [])
    (hinc : g.connections.filter (fun pr => decide (pr.2 = dst)) ≠ []) :
    ∃ m2, modConnect src dst true m g
        = .ok (m2, { g with connections :=
            g.connections.filter (fun pr => decide (¬ pr.2 = dst)) })
      ∧ m2.pending = [Intent.connectIntent src dst]
      ∧ m2.applied = m.applied
          ++ ((g.connections.filter (fun pr => decide (pr.2 = dst))).map
              (fun pr => pr.1)).map (fun s => Intent.disconnectIntent s dst)
      ∧ ∀ s : PlugRef,
          (s, dst) ∉ g.connections.filter (fun pr => decide (¬ pr.2 = dst)) := by
  have hfold := foldDisc_fields dst
    ((g.connections.filter (fun pr => decide (pr.2 = dst))).map (fun pr => pr.1))
    (record "connect" [src.path, dst.path] m)
  have hpend2 : (((g.connections.filter (fun pr => decide (pr.2 = dst))).map
        (fun pr => pr.1)).foldl (fun acc s =>
          let acc1 := record "disconnect" [s.path, dst.path] acc
          { acc1 with pending := acc1.pending ++ [Intent.disconnectIntent s dst] })
        (record "connect" [src.path, dst.path] m)).pending
      = ((g.connections.filter (fun pr => decide (pr.2 = dst))).map
          (fun pr => pr.1)).map (fun s => Intent.disconnectIntent s dst) := by
    rw [hfold.1]
    simp [record, hpend]
  have happl2 : (((g.connections.filter (fun pr => decide (pr.2 = dst))).map
        (fun pr => pr.1)).foldl (fun acc s =>
          let acc1 := record "disconnect" [s.path, dst.path] acc
          { acc1 with pending := acc1.pending ++ [Intent.disconnectIntent s dst] })
        (record "connect" [src.path, dst.path] m)).applied = m.applied := by
    rw [hfold.2]
    simp [record]
  have hempty : (((g.connections.filter (fun pr => decide (pr.2 = dst))).map
      (fun pr => pr.1)).isEmpty) = false := by
    cases hs : (g.connections.filter (fun pr => decide (pr.2 = dst))) with
    | nil => exact absurd hs hinc
    | cons a l => simp [hs]
  have hflush := hostDoIt_disconnect_filter dst g.connections g.nodes g.lockedPlugs
  refine ⟨{ (((g.connections.filter (fun pr => decide (pr.2 = dst))).map
        (fun pr => pr.1)).foldl (fun acc s =>
          let acc1 := record "disconnect" [s.path, dst.path] acc
          { acc1 with pending := acc1.pending ++ [Intent.disconnectIntent s dst] })
        (record "connect" [src.path, dst.path] m)) with
      pending := [Intent.connectIntent src dst]
      applied := (((g.connections.filter (fun pr => decide (pr.2 = dst))).map
        (fun pr => pr.1)).foldl (fun acc s =>
          let acc1 := record "disconnect" [s.path, dst.path] acc
          { acc1 with pending := acc1.pending ++ [Intent.disconnectIntent s dst] })
        (record "connect" [src.path, dst.path] m)).applied
        ++ ((g.connections.filter (fun pr => decide (pr.2 = dst))).map
            (fun pr => pr.1)).map (fun s => Intent.disconnectIntent s dst) },
    ?_, ?_, ?_, ?_⟩
  · simp only [modConnect]
    rw [if_neg hlock]
    simp only [if_true, hempty, Bool.false_eq_true, if_false]
    rw [hpend2, hflush]
  · simp
  · simp only [happl2]
  · intro s hs
    have := List.of_mem_filter hs
    simp at this

/-- A host graph with two incoming connections on one destination plug,
for the C7 witness. -/
def c7graph : Graph :=
  ⟨["A", "B", "C"],
   [(⟨"A", "out"⟩, ⟨"B", "in"⟩), (⟨"C", "out"⟩, ⟨"B", "in"⟩)],
   []⟩

/-- Witness for C7 at the concrete two-incoming-connections graph. -/
theorem mod_connect_force_flush_witness :
    ∃ m2, modConnect ⟨"A", "out2"⟩ ⟨"B", "in"⟩ true (freshMod atomicOpts) c7graph
        = .ok (m2, { c7graph with connections :=
            (c7graph.connections.filter
              (fun pr => decide (¬ pr.2 = (⟨"B", "in"⟩ : PlugRef)))) })
      ∧ m2.pending = [Intent.connectIntent ⟨"A", "out2"⟩ ⟨"B", "in"⟩]
      ∧ m2.applied = (freshMod atomicOpts).applied
          ++ ((c7graph.connections.filter
              (fun pr => decide (pr.2 = (⟨"B", "in"⟩ : PlugRef)))).map
              (fun pr => pr.1)).map
                (fun s => Intent.disconnectIntent s ⟨"B", "in"⟩)
      ∧ ∀ s : PlugRef,
          (s, (⟨"B", "in"⟩ : PlugRef)) ∉ c7graph.connections.filter
            (fun pr => decide (¬ pr.2 = (⟨"B", "in"⟩ : PlugRef))) :=
  mod_connect_force_flush ⟨"A", "out2"⟩ ⟨"B", "in"⟩ (freshMod atomicOpts) c7graph
    (by decide) (by decide) (by decide)

/-- True exactly for the unit-bearing storage kinds. -/
def unitBearingKind : HostPlug → Bool
  | .distanceLeaf _ => true
  | .angleLeaf _ => true
  | .timeLeaf _ => true
  | _ => false

/-- True for simple storage kinds, excluding compounds and arrays. -/
def simpleKind : HostPlug → Bool
  | .compound _ => false
  | .arrayPlug _ _ => false
  | _ => true

/-- C8 counterexample: units are bare host integers, so requesting the
angle unit Degrees on a distance channel does not fail with a Type
error; its integer value collides with Feet and the read silently
converts 30.48 internal centimeters to 1 foot. -/
theorem unit_alias_counterexample :
    plug_to_python (.distanceLeaf (762 / 25)) (some Degrees) = .ok (.pyFloat 1)
    ∧ Degrees.cls = UnitClass.angleCls
    ∧ plug_to_python (.distanceLeaf (762 / 25)) (some Degrees)
        ≠ .error .typeError := by
  have h1 : plug_to_python (.distanceLeaf (762 / 25)) (some Degrees)
      = .ok (.pyFloat 1) := by
    simp only [plug_to_python, leafToPython, Degrees, Millimeters, Centimeters,
      Meters, Kilometers, Inches, Feet, mdistanceAsUnits, cmPerDistanceEnum]
    norm_num
  refine ⟨h1, rfl, ?_⟩
  rw [h1]
  intro hx
  exact Except.noConfusion hx

/-- C8 amended: unit conversion happens only for the angle, distance and
time kinds; for every other simple kind the unit argument has no effect
on the decoded value. For the distance and angle kinds a unit whose
integer value falls outside the accepted host enum range of that kind
fails with a Type error, while any unit inside the range is interpreted
as that kind regardless of its class; the time kind performs no proxy
unit check at all and never raises a Type error. -/
theorem unit_conversion_rules :
    (∀ (p : HostPlug) (u1 u2 : Option MUnit), simpleKind p = true →
        unitBearingKind p = false → plug_to_python p u1 = plug_to_python p u2)
    ∧ (∀ (cm : ℚ) (un : MUnit), 1 ≤ un.enum → un.enum ≤ 8 →
        ∃ q, plug_to_python (.distanceLeaf cm) (some un) = .ok (.pyFloat q))
    ∧ (∀ (cm : ℚ) (un : MUnit), un.enum < 1 ∨ 8 < un.enum →
        plug_to_python (.distanceLeaf cm) (some un) = .error .typeError)
    ∧ (∀ (rad : ℚ) (un : MUnit), 1 ≤ un.enum → un.enum ≤ 4 →
        ∃ q, plug_to_python (.angleLeaf rad) (some un) = .ok (.pyFloat q))
    ∧ (∀ (rad : ℚ) (un : MUnit), un.enum < 1 ∨ 4 < un.enum →
        plug_to_python (.angleLeaf rad) (some un) = .error .typeError)
    ∧ (∀ (sec : ℚ) (un : MUnit),
        plug_to_python (.timeLeaf sec) (some un) ≠ .error .typeError) := by
  refine ⟨?_, ?_, ?_, ?_, ?_, ?_⟩
  · intro p u1 u2 hs hu
    cases p <;> simp [simpleKind, unitBearingKind] at hs hu ⊢ <;>
      simp [plug_to_python, leafToPython]
  · intro cm un h1 h8
    obtain ⟨cls, e⟩ := un
    simp only [plug_to_python, leafToPython, Millimeters, Centimeters, Meters,
      Kilometers, Inches, Feet, Miles, Yards] at *
    interval_cases e <;> simp
  · intro cm un hout
    obtain ⟨cls, e⟩ := un
    simp only at hout
    simp only [plug_to_python, leafToPython, Millimeters, Centimeters, Meters,
      Kilometers, Inches, Feet, Miles, Yards]
    repeat rw [if_neg (by omega)]
  · intro rad un h1 h4
    obtain ⟨cls, e⟩ := un
    simp only [plug_to_python, leafToPython, Degrees, Radians, AngularSeconds,
      AngularMinutes] at *
    interval_cases e <;> simp
  · intro rad un hout
    obtain ⟨cls, e⟩ := un
    simp only at hout
    simp only [plug_to_python, leafToPython, Degrees, Radians, AngularSeconds,
      AngularMinutes]
    repeat rw [if_neg (by omega)]
  · intro sec un
    simp only [plug_to_python, leafToPython, mtimeAsUnits]
    cases hsec : secPerTimeEnum un.enum <;> simp [Except.map]

/-- Witness for C8 amended, at concrete kinds and units: the unit has no
effect on an int read; Meters converts a distance; an out-of-range unit
integer on a distance read raises Type; Degrees converts an angle;
Meters on an angle read raises Type; an unknown unit integer on a time
read is not a Type error. -/
theorem unit_conversion_rules_witness :
    (plug_to_python (.intLeaf 3) (some Degrees)
        = plug_to_python (.intLeaf 3) (some Meters))
    ∧ (∃ q, plug_to_python (.distanceLeaf 100) (some Meters) = .ok (.pyFloat q))
    ∧ plug_to_python (.distanceLeaf 100) (some ⟨.distanceCls, 42⟩)
        = .error .typeError
    ∧ (∃ q, plug_to_python (.angleLeaf 1) (some Degrees) = .ok (.pyFloat q))
    ∧ plug_to_python (.angleLeaf 1) (some Meters) = .error .typeError
    ∧ plug_to_python (.timeLeaf 1) (some ⟨.timeCls, 99⟩) ≠ .error .typeError := by
  refine ⟨?_, ?_, ?_, ?_, ?_, ?_⟩
  · exact unit_conversion_rules.1 (.intLeaf 3) (some Degrees) (some Meters) rfl rfl
  · exact unit_conversion_rules.2.1 100 Meters (by decide) (by decide)
  · exact unit_conversion_rules.2.2.1 100 ⟨.distanceCls, 42⟩ (by norm_num)
  · exact unit_conversion_rules.2.2.2.1 1 Degrees (by decide) (by decide)
  · exact unit_conversion_rules.2.2.2.2.1 1 Meters (by norm_num [Meters])
  · exact unit_conversion_rules.2.2.2.2.2 1 ⟨.timeCls, 99⟩

/-- A fresh node with one double channel named tx, for the C6 scenario. -/
def c6node0 : NodeState := ⟨[("tx", .doubleLeaf 0)], []⟩

/-- The node after writing 5 to tx. -/
def c6node1 : NodeState :=
  match nodeSetItem c6node0 "tx" (.pyFloat 5) with
  | .ok n => n
  | .error _ => c6node0

/-- The node after additionally reading tx once. -/
def c6node2 : NodeState :=
  match nodeReadItem c6node1 "tx" none with
  | .ok r => r.2
  | .error _ => c6node1

/-- The node after then writing 10 to tx. -/
def c6node3 : NodeState :=
  match nodeSetItem c6node2 "tx" (.pyFloat 10) with
  | .ok n => n
  | .error _ => c6node2

/-- C6 counterexample: a write does not memoize on the owning entity, so
a read immediately after a write cannot be served from the transient
state: after a fresh write the values dict is empty, and after a write
that follows an earlier read the cached access yields the stale earlier
read, not the value just written. -/
theorem write_not_memoized_counterexample :
    c6node1.values = []
    ∧ nodeGetItem c6node3 "tx" none true = .ok (.cachedPlug (.pyFloat 5))
    ∧ (5 : ℚ) ≠ 10 := by
  have h1 : c6node1 = ⟨[("tx", .doubleLeaf 5)], []⟩ := by
    simp [c6node1, c6node0, nodeSetItem, dictLookup, plugWrite, python_to_plug,
      hostSetDouble, bind, Except.bind, dictInsert]
  have h2 : c6node2 = ⟨[("tx", .doubleLeaf 5)],
      [((some "tx", none), .pyFloat 5)]⟩ := by
    simp [c6node2, h1, nodeReadItem, nodeGetItem, dictLookup, plugRead,
      plug_to_python, leafToPython, bind, Except.bind, dictInsert]
  have h3 : c6node3 = ⟨[("tx", .doubleLeaf 10)],
      [((some "tx", none), .pyFloat 5)]⟩ := by
    simp [c6node3, h2, nodeSetItem, dictLookup, plugWrite, python_to_plug,
      hostSetDouble, bind, Except.bind, dictInsert]
  refine ⟨by rw [h1], ?_, by norm_num⟩
  rw [h3]
  simp [nodeGetItem, dictLookup]

theorem ratsOf_map_pyFloat (qs : List ℚ) :
    ratsOf (qs.map .pyFloat) = some qs := by
  induction qs with
  | nil => simp [ratsOf]
  | cons q rest ih => simp [ratsOf, ih]

theorem writeArrayElems_floats (qs : List ℚ) :
    writeArrayElems (qs.map .pyFloat) [] (.doubleLeaf 0)
      = .ok (qs.map .doubleLeaf) := by
  induction qs with
  | nil => simp [writeArrayElems]
  | cons q rest ih =>
      simp [writeArrayElems, python_to_plug, hostSetDouble, ih, bind,
        Except.bind]

theorem plugs_to_python_doubles (qs : List ℚ) :
    plugs_to_python (qs.map .doubleLeaf) none = .ok (qs.map .pyFloat) := by
  induction qs with
  | nil => simp [plugs_to_python]
  | cons q rest ih =>
      simp [plugs_to_python, plug_to_python, leafToPython, ih, bind,
        Except.bind]

/-- C6 amended: for every supported value kind — boolean, integer,
float, string, 3-vector, matrix, angle, distance and time each in two
units, array and compound — writing a value and reading it back with the
same unit returns the value exactly; a read memoizes the decoded value
on the owning entity keyed by channel key and effective unit; a write
leaves the entity memo untouched, recording the value only on the plug
object, so a post-write read is not served from the entity memo. -/
theorem plug_roundtrip_and_memoization :
    (∀ b : Bool, writeThenRead (.boolLeaf false) (.pyBool b) none
        = .ok (.pyBool b))
    ∧ (∀ i : Int, writeThenRead (.intLeaf 0) (.pyInt i) none = .ok (.pyInt i))
    ∧ (∀ q : ℚ, writeThenRead (.doubleLeaf 0) (.pyFloat q) none
        = .ok (.pyFloat q))
    ∧ (∀ s : String, writeThenRead (.stringLeaf "") (.pyStr s) none
        = .ok (.pyStr s))
    ∧ (∀ x y z : ℚ, writeThenRead
        (.compound [.doubleLeaf 0, .doubleLeaf 0, .doubleLeaf 0])
        (.pyTuple [.pyFloat x, .pyFloat y, .pyFloat z]) none
        = .ok (.pyTuple [.pyFloat x, .pyFloat y, .pyFloat z]))
    ∧ (∀ qs : List ℚ, qs.length = 16 →
        writeThenRead (.matrixLeaf []) (.pyTuple (qs.map .pyFloat)) none
          = .ok (.pyTuple (qs.map .pyFloat)))
    ∧ (∀ q : ℚ, writeThenRead (.angleLeaf 0) (.mAngleVal q Degrees.enum)
          (some Degrees) = .ok (.pyFloat q)
        ∧ writeThenRead (.angleLeaf 0) (.mAngleVal q Radians.enum)
          (some Radians) = .ok (.pyFloat q))
    ∧ (∀ q : ℚ, writeThenRead (.distanceLeaf 0) (.mDistanceVal q Meters.enum)
          (some Meters) = .ok (.pyFloat q)
        ∧ writeThenRead (.distanceLeaf 0) (.mDistanceVal q Millimeters.enum)
          (some Millimeters) = .ok (.pyFloat q))
    ∧ (∀ q : ℚ, writeThenRead (.timeLeaf 0) (.mTimeVal q Seconds.enum)
          (some Seconds) = .ok (.pyFloat q)
        ∧ writeThenRead (.timeLeaf 0) (.mTimeVal q Milliseconds.enum)
          (some Milliseconds) = .ok (.pyFloat q))
    ∧ (∀ qs : List ℚ, writeThenRead (.arrayPlug (.doubleLeaf 0) [])
        (.pyTuple (qs.map .pyFloat)) none = .ok (.pyTuple (qs.map .pyFloat)))
    ∧ (∀ (b : Bool) (q : ℚ), writeThenRead (.compound [.boolLeaf false, .doubleLeaf 0])
        (.pyTuple [.pyBool b, .pyFloat q]) none
        = .ok (.pyTuple [.pyBool b, .pyFloat q]))
    ∧ (∀ (po : PlugObj) (host : HostPlug) (n : NodeState)
        (uArg : Option MUnit) (v : PyValue) (n2 : NodeState),
        plugRead po host n uArg = .ok (v, n2) →
        dictLookup (po.key, match uArg with
          | some u => some u
          | none => po.unit) n2.values = some v)
    ∧ (∀ (n : NodeState) (key : String) (v : PyValue) (n2 : NodeState),
        nodeSetItem n key v = .ok n2 → n2.values = n.values) := by
  have hpi : piRat / 180 ≠ 0 := by norm_num [piRat]
  refine ⟨?_, ?_, ?_, ?_, ?_, ?_, ?_, ?_, ?_, ?_, ?_, ?_, ?_⟩
  · intro b
    cases b <;>
      simp [writeThenRead, plugWrite, plugRead, python_to_plug, hostSetInt,
        plug_to_python, leafToPython, bind, Except.bind]
  · intro i
    simp [writeThenRead, plugWrite, plugRead, python_to_plug, hostSetInt,
      plug_to_python, leafToPython, bind, Except.bind]
  · intro q
    simp [writeThenRead, plugWrite, plugRead, python_to_plug, hostSetDouble,
      plug_to_python, leafToPython, bind, Except.bind]
  · intro s
    simp [writeThenRead, plugWrite, plugRead, python_to_plug, hostSetString,
      plug_to_python, leafToPython, bind, Except.bind]
  · intro x y z
    simp [writeThenRead, plugWrite, plugRead, python_to_plug,
      writeCompoundElems, hostSetDouble, plug_to_python, plugs_to_python,
      leafToPython, bind, Except.bind, Except.map]
  · intro qs h16
    have hw : python_to_plug (.pyTuple (qs.map .pyFloat)) (.matrixLeaf [])
        = .ok (.matrixLeaf qs) := by
      simp only [python_to_plug]
      rw [List.length_map, if_pos h16, ratsOf_map_pyFloat]
    simp [writeThenRead, plugWrite, bind, Except.bind, hw, plugRead,
      plug_to_python, leafToPython]
  · intro q
    constructor <;>
    · simp only [writeThenRead, plugWrite, bind, Except.bind, Except.map,
        python_to_plug, radPerAngleEnum, Degrees, Radians, AngularSeconds,
        AngularMinutes, plugRead, plug_to_python, leafToPython, mangleAsUnits]
      norm_num [piRat]
  · intro q
    constructor <;>
    · simp only [writeThenRead, plugWrite, bind, Except.bind, Except.map,
        python_to_plug, cmPerDistanceEnum, Meters, Millimeters, Centimeters,
        Kilometers, Inches, Feet, Miles, Yards, plugRead, plug_to_python,
        leafToPython, mdistanceAsUnits]
      norm_num
  · intro q
    constructor <;>
    · simp only [writeThenRead, plugWrite, bind, Except.bind, Except.map,
        python_to_plug, secPerTimeEnum, Seconds, Milliseconds, plugRead,
        plug_to_python, leafToPython, mtimeAsUnits]
      norm_num
  · intro qs
    have hw : python_to_plug (.pyTuple (qs.map .pyFloat))
        (.arrayPlug (.doubleLeaf 0) [])
        = .ok (.arrayPlug (.doubleLeaf 0) (qs.map .doubleLeaf)) := by
      unfold python_to_plug
      simp [writeArrayElems_floats, Except.map]
    have hr : plug_to_python (.arrayPlug (.doubleLeaf 0) (qs.map .doubleLeaf))
        none = .ok (.pyTuple (qs.map .pyFloat)) := by
      unfold plug_to_python
      simp [HostPlug.isCompoundAttr, plugs_to_python_doubles, Except.map]
    simp [writeThenRead, plugWrite, plugRead, bind, Except.bind, hw, hr]
  · intro b q
    cases b <;>
      simp [writeThenRead, plugWrite, plugRead, python_to_plug,
        writeCompoundElems, hostSetInt, hostSetDouble, plug_to_python,
        plugs_to_python, leafToPython, bind, Except.bind, Except.map]
  · intro po host n uArg v n2 h
    cases uArg with
    | some u =>
        simp only [plugRead, bind, Except.bind] at h ⊢
        cases hv : plug_to_python host (some u) with
        | error e => rw [hv] at h; exact absurd h (by simp)
        | ok w =>
            rw [hv] at h
            simp only [Except.ok.injEq, Prod.mk.injEq] at h
            obtain ⟨hvw, hn2⟩ := h
            rw [← hn2]
            simp only [dictLookup_dictInsert, hvw]
    | none =>
        simp only [plugRead, bind, Except.bind] at h ⊢
        cases hv : plug_to_python host po.unit with
        | error e => rw [hv] at h; exact absurd h (by simp)
        | ok w =>
            rw [hv] at h
            simp only [Except.ok.injEq, Prod.mk.injEq] at h
            obtain ⟨hvw, hn2⟩ := h
            rw [← hn2]
            simp only [dictLookup_dictInsert, hvw]
  · intro n key v n2 h
    simp only [nodeSetItem] at h
    cases hl : dictLookup key n.attrs with
    | none => rw [hl] at h; exact absurd h (by simp)
    | some hostp =>
        rw [hl] at h
        simp only [plugWrite, bind, Except.bind] at h
        cases hw : python_to_plug v hostp with
        | error e => rw [hw] at h; exact absurd h (by simp)
        | ok h2 =>
            rw [hw] at h
            simp only [Except.ok.injEq] at h
            rw [← h]

/-- True for the bare scalar Python values: bool, int, float, string. -/
def isScalarValue : PyValue → Bool
  | .pyBool _ => true
  | .pyInt _ => true
  | .pyFloat _ => true
  | .pyStr _ => true
  | _ => false

theorem writeCompoundElems_cons (v : PyValue)
    (hnt : ∀ vs : List PyValue, v ≠ .pyTuple vs)
    (rest : List PyValue) (c : HostPlug) (cs : List HostPlug) :
    writeCompoundElems (v :: rest) (c :: cs)
      = Except.bind (python_to_plug v c) (fun c2 =>
          Except.bind (writeCompoundElems rest cs)
            (fun cs3 => Except.ok (c2 :: cs3))) := by
  cases v
  case pyTuple vs => exact absurd rfl (hnt vs)
  all_goals simp [writeCompoundElems, bind, Except.bind]

theorem writeCompound_replicate (v : PyValue) (hs : isScalarValue v = true) :
    ∀ (cs cs2 : List HostPlug),
      writeCompoundElems (List.replicate cs.length v) cs = .ok cs2 →
      cs2.length = cs.length ∧
      ∀ (i : Nat) (hi : i < cs.length) (hi2 : i < cs2.length),
        python_to_plug v (cs.get ⟨i, hi⟩) = .ok (cs2.get ⟨i, hi2⟩) := by
  have hnt : ∀ vs : List PyValue, v ≠ .pyTuple vs := by
    intro vs hx
    rw [hx] at hs
    simp [isScalarValue] at hs
  intro cs
  induction cs with
  | nil =>
      intro cs2 h
      simp only [List.length_nil, List.replicate, writeCompoundElems,
        Except.ok.injEq] at h
      subst h
      exact ⟨rfl, fun i hi hi2 => absurd hi (Nat.not_lt_zero i)⟩
  | cons c rest ih =>
      intro cs2 h
      rw [List.length_cons, List.replicate_succ,
        writeCompoundElems_cons v hnt] at h
      cases hw : python_to_plug v c with
      | error e =>
          rw [hw] at h
          exact absurd h (by simp [Except.bind])
      | ok c2 =>
          rw [hw] at h
          cases hrest : writeCompoundElems (List.replicate rest.length v) rest with
          | error e =>
              rw [hrest] at h
              exact absurd h (by simp [Except.bind])
          | ok cs3 =>
              rw [hrest] at h
              simp only [Except.bind, Except.ok.injEq] at h
              subst h
              obtain ⟨hlen, hidx⟩ := ih cs3 hrest
              refine ⟨by simp [hlen], ?_⟩
              intro i hi hi2
              cases i with
              | zero => simpa using hw
              | succ j =>
                  have hj : j < rest.length := Nat.lt_of_succ_lt_succ hi
                  have hj2 : j < cs3.length := Nat.lt_of_succ_lt_succ hi2
                  simpa using hidx j hj hj2

/-- C9: writing one bare scalar value to a compound channel with n
children is re-dispatched as writing the flat tuple of n copies of the
value, and when the write succeeds every child has received exactly that
value. -/
theorem compound_scalar_write_distributes (v : PyValue) (cs : List HostPlug)
    (hs : isScalarValue v = true) :
    python_to_plug v (.compound cs)
      = python_to_plug (.pyTuple (List.replicate cs.length v)) (.compound cs)
    ∧ ∀ cs2 : List HostPlug,
        python_to_plug v (.compound cs) = .ok (.compound cs2) →
        cs2.length = cs.length ∧
        ∀ (i : Nat) (hi : i < cs.length) (hi2 : i < cs2.length),
          python_to_plug v (cs.get ⟨i, hi⟩) = .ok (cs2.get ⟨i, hi2⟩) := by
  have htup : ∀ vs : List PyValue, python_to_plug (.pyTuple vs) (.compound cs)
      = (writeCompoundElems vs cs).map .compound := by
    intro vs
    unfold python_to_plug
    rfl
  have h1 : python_to_plug v (.compound cs)
      = python_to_plug (.pyTuple (List.replicate cs.length v)) (.compound cs) := by
    cases v <;> simp [isScalarValue] at hs <;> (unfold python_to_plug) <;>
      simp only [htup]
  refine ⟨h1, ?_⟩
  intro cs2 h
  rw [h1, htup] at h
  cases hw : writeCompoundElems (List.replicate cs.length v) cs with
  | error e =>
      rw [hw] at h
      exact absurd h (by simp [Except.map])
  | ok cs3 =>
      rw [hw] at h
      simp only [Except.map, Except.ok.injEq, HostPlug.compound.injEq] at h
      subst h
      exact writeCompound_replicate v hs cs _ hw

/-- Witness for C9 at a concrete scalar and a two-child compound. -/
theorem compound_scalar_write_distributes_witness :
    (python_to_plug (.pyFloat 7) (.compound [.doubleLeaf 0, .doubleLeaf 1])
      = python_to_plug (.pyTuple (List.replicate 2 (.pyFloat 7)))
          (.compound [.doubleLeaf 0, .doubleLeaf 1]))
    ∧ python_to_plug (.pyFloat 7) (.compound [.doubleLeaf 0, .doubleLeaf 1])
        = .ok (.compound [.doubleLeaf 7, .doubleLeaf 7]) := by
  have h := compound_scalar_write_distributes (.pyFloat 7)
      [.doubleLeaf 0, .doubleLeaf 1] rfl
  refine ⟨h.1, ?_⟩
  rw [h.1]
  unfold python_to_plug
  simp [writeCompoundElems, python_to_plug, hostSetDouble, bind, Except.bind,
    Except.map, List.replicate]

/-- Witness for C6 amended, exercising the matrix conjunct with an
explicit 16-entry value and the memoization conjunct at a concrete
read. -/
theorem plug_roundtrip_and_memoization_witness :
    writeThenRead (.matrixLeaf [])
      (.pyTuple (([0, 1, 2, 3, 4, 5, 6, 7, 8, 9, 10, 11, 12, 13, 14,
        15] : List ℚ).map .pyFloat)) none
      = .ok (.pyTuple (([0, 1, 2, 3, 4, 5, 6, 7, 8, 9, 10, 11, 12, 13, 14,
        15] : List ℚ).map .pyFloat)) :=
  plug_roundtrip_and_memoization.2.2.2.2.2.1
    [0, 1, 2, 3, 4, 5, 6, 7, 8, 9, 10, 11, 12, 13, 14, 15] (by decide)

end Cmdx
